import Mathlib

/-!
Shallow embedding of the retrieval-augmented-generation service in
`src/app.py` (a Python/FastAPI application), together with proofs about it.

Modelling conventions:
* Python strings are modelled as `List Char` where character-level structure
  matters (whitespace splitting, joining, truncation) and as `String` where
  they are opaque values.
* Python exceptions are modelled with `Except String`; a `try/except` block
  becomes a `match` on the `Except` value of each fallible step.
* External collaborators (the database client, the document loaders, the
  vector-store builder, the LLM chain) are opaque parameters gathered in an
  environment structure; the control flow of `app.py` itself is translated
  directly.
-/

/-- Whitespace test used by Python `str.split()` with no arguments
(ASCII whitespace: space, tab, newline, carriage return, vertical tab,
form feed). -/
def pyWs (c : Char) : Bool :=
  c == ' ' || c == '\t' || c == '\n' || c == '\r' || c == '\x0b' || c == '\x0c'

/-- Negation of `pyWs`: a character that belongs to a token. -/
def notWs (c : Char) : Bool := !(pyWs c)

/-- Accumulator worker for `pySplit`: `acc` holds the current token's
characters in reverse order. -/
def pySplitAux : List Char → List Char → List (List Char)
  | [], acc => if acc.isEmpty then [] else [acc.reverse]
  | c :: rest, acc =>
    if pyWs c then
      if acc.isEmpty then pySplitAux rest [] else acc.reverse :: pySplitAux rest []
    else pySplitAux rest (c :: acc)

/-- Python `context.split()` (no argument): maximal runs of non-whitespace
characters, with leading/trailing/repeated whitespace dropped. -/
def pySplit (s : List Char) : List (List Char) := pySplitAux s []

/-- Python `sep.join(tokens)` for a single-character separator. -/
def joinSep (sep : Char) : List (List Char) → List Char
  | [] => []
  | [t] => t
  | t :: u :: ts => t ++ sep :: joinSep sep (u :: ts)

/-- Model of `truncate_context` (src/app.py lines 198-202):
tokens = context.split(); if len(tokens) > max_tokens: tokens = tokens[:max_tokens];
return ' '.join(tokens). `max_tokens` is a non-negative integer (the one call
site passes the literal 6000). -/
def truncate_context (context : List Char) (max_tokens : Nat) : List Char :=
  let tokens := pySplit context
  let tokens2 := if tokens.length > max_tokens then tokens.take max_tokens else tokens
  joinSep ' ' tokens2

/-- The proposition that the character list `s` starts with `p`
(i.e. `p` is an initial segment of `s`). -/
def listStarts (s p : List Char) : Prop := s.take p.length = p

theorem listStarts_of_append (p u : List Char) : listStarts (p ++ u) p :=
  List.take_left p u

theorem listStarts_refl (s : List Char) : listStarts s s :=
  List.take_length s

theorem pySplitAux_cons_notWs (c : Char) (rest acc : List Char) (hc : pyWs c = false) :
    pySplitAux (c :: rest) acc = pySplitAux rest (c :: acc) := by
  simp [pySplitAux, hc]

theorem pySplitAux_cons_ws_nil (c : Char) (rest : List Char) (hc : pyWs c = true) :
    pySplitAux (c :: rest) [] = pySplitAux rest [] := by
  simp [pySplitAux, hc]

theorem pySplitAux_cons_ws_cons (c : Char) (rest : List Char) (a : Char) (acc : List Char)
    (hc : pyWs c = true) :
    pySplitAux (c :: rest) (a :: acc) = (a :: acc).reverse :: pySplitAux rest [] := by
  simp [pySplitAux, hc, List.isEmpty]

theorem pySplitAux_nil_cons (a : Char) (acc : List Char) :
    pySplitAux [] (a :: acc) = [(a :: acc).reverse] := by
  simp [pySplitAux, List.isEmpty]

/-- Consuming a run of token characters just pushes them onto the
accumulator. -/
theorem pySplitAux_accum (t : List Char) (ht : ∀ c ∈ t, notWs c = true) :
    ∀ (s acc : List Char), pySplitAux (t ++ s) acc = pySplitAux s (t.reverse ++ acc) := by
  induction t with
  | nil => intro s acc; simp
  | cons c t ih =>
    intro s acc
    have hc : pyWs c = false := by
      have h1 := ht c (by simp)
      simpa [notWs] using h1
    have ht' : ∀ x ∈ t, notWs x = true := fun x hx => ht x (by simp [hx])
    simp only [List.cons_append]
    rw [pySplitAux_cons_notWs c (t ++ s) acc hc, ih ht' s (c :: acc)]
    simp [List.append_assoc]

/-- Every token produced by `pySplitAux` is nonempty and consists of
non-whitespace characters, provided the accumulator does. -/
theorem pySplitAux_good : ∀ (s acc : List Char),
    (∀ c ∈ acc, notWs c = true) →
    ∀ t ∈ pySplitAux s acc, t ≠ [] ∧ ∀ c ∈ t, notWs c = true := by
  intro s
  induction s with
  | nil =>
    intro acc hacc t ht
    cases acc with
    | nil => simp [pySplitAux] at ht
    | cons a acc' =>
      rw [pySplitAux_nil_cons a acc'] at ht
      have heq : t = (a :: acc').reverse := List.mem_singleton.mp ht
      subst heq
      refine ⟨by simp, ?_⟩
      intro c hc
      exact hacc c (List.mem_reverse.mp hc)
  | cons c rest ih =>
    intro acc hacc t ht
    by_cases hc : pyWs c = true
    · cases acc with
      | nil =>
        rw [pySplitAux_cons_ws_nil c rest hc] at ht
        exact ih [] (by simp) t ht
      | cons a acc' =>
        rw [pySplitAux_cons_ws_cons c rest a acc' hc] at ht
        rcases List.mem_cons.mp ht with ht | ht
        · subst ht
          refine ⟨by simp, ?_⟩
          intro x hx
          exact hacc x (List.mem_reverse.mp hx)
        · exact ih [] (by simp) t ht
    · have hc' : pyWs c = false := by simpa using hc
      rw [pySplitAux_cons_notWs c rest acc hc'] at ht
      refine ih (c :: acc) ?_ t ht
      intro x hx
      rcases List.mem_cons.mp hx with h | h
      · subst h; simp [notWs, hc']
      · exact hacc x h

/-- Every token of `pySplit s` is nonempty and whitespace-free. -/
theorem pySplit_good (s : List Char) :
    ∀ t ∈ pySplit s, t ≠ [] ∧ ∀ c ∈ t, notWs c = true :=
  pySplitAux_good s [] (by simp)

/-- Splitting a separator-joined list of nonempty whitespace-free tokens
recovers exactly the tokens, for any whitespace separator. -/
theorem pySplit_joinSep (sep : Char) (hsep : pyWs sep = true) :
    ∀ ts : List (List Char),
      (∀ t ∈ ts, t ≠ [] ∧ ∀ c ∈ t, notWs c = true) →
      pySplit (joinSep sep ts) = ts := by
  intro ts
  induction ts with
  | nil => intro _; rfl
  | cons t ts ih =>
    intro h
    have ht : t ≠ [] ∧ ∀ c ∈ t, notWs c = true := h t (by simp)
    cases ts with
    | nil =>
      show pySplitAux (joinSep sep [t]) [] = [t]
      have hj : joinSep sep [t] = t ++ [] := by simp [joinSep]
      rw [hj, pySplitAux_accum t ht.2, List.append_nil]
      cases hrev : t.reverse with
      | nil => exact absurd (by simpa using hrev) ht.1
      | cons a as =>
        rw [pySplitAux_nil_cons a as, ← hrev, List.reverse_reverse]
    | cons u ts' =>
      have hrest : ∀ x ∈ (u :: ts'), x ≠ [] ∧ ∀ c ∈ x, notWs c = true := by
        intro x hx
        exact h x (by simp [hx])
      show pySplitAux (joinSep sep (t :: u :: ts')) [] = t :: u :: ts'
      have hjoin : joinSep sep (t :: u :: ts') = t ++ (sep :: joinSep sep (u :: ts')) := rfl
      rw [hjoin, pySplitAux_accum t ht.2, List.append_nil]
      cases hrev : t.reverse with
      | nil => exact absurd (by simpa using hrev) ht.1
      | cons a as =>
        rw [pySplitAux_cons_ws_cons sep _ a as hsep, ← hrev, List.reverse_reverse]
        show t :: pySplit (joinSep sep (u :: ts')) = t :: u :: ts'
        rw [ih hrest]

/-- The tokens of a truncated context are exactly the first `N` tokens of the
original context. -/
theorem pySplit_truncate_context (C : List Char) (N : Nat) :
    pySplit (truncate_context C N) = (pySplit C).take N := by
  have hgood : ∀ t ∈ pySplit C, t ≠ [] ∧ ∀ c ∈ t, notWs c = true := pySplit_good C
  show pySplit (joinSep ' '
      (if (pySplit C).length > N then (pySplit C).take N else pySplit C)) = (pySplit C).take N
  by_cases h : (pySplit C).length > N
  · rw [if_pos h]
    refine pySplit_joinSep ' ' rfl _ ?_
    intro t ht
    exact hgood t (List.take_subset N (pySplit C) ht)
  · rw [if_neg h]
    rw [pySplit_joinSep ' ' rfl (pySplit C) hgood]
    rw [List.take_of_length_le (Nat.le_of_not_lt h)]

/-- Joining any `take` of a token list yields an initial segment of joining the
whole token list. -/
theorem joinSep_take_starts (sep : Char) :
    ∀ (ts : List (List Char)) (n : Nat),
      ∃ u, joinSep sep ts = joinSep sep (ts.take n) ++ u := by
  intro ts
  induction ts with
  | nil =>
    intro n
    exact ⟨[], by simp [joinSep]⟩
  | cons t ts ih =>
    intro n
    cases n with
    | zero => exact ⟨joinSep sep (t :: ts), by simp [joinSep]⟩
    | succ m =>
      cases ts with
      | nil => exact ⟨[], by simp [joinSep]⟩
      | cons v ts' =>
        cases m with
        | zero =>
          refine ⟨sep :: joinSep sep (v :: ts'), ?_⟩
          simp [joinSep]
        | succ k =>
          obtain ⟨u, hu⟩ := ih (k + 1)
          refine ⟨u, ?_⟩
          have h2 : (v :: ts').take (k + 1) = v :: ts'.take k := rfl
          show t ++ sep :: joinSep sep (v :: ts') =
              joinSep sep (t :: (v :: ts').take (k + 1)) ++ u
          rw [h2]
          show t ++ sep :: joinSep sep (v :: ts') =
              (t ++ sep :: joinSep sep (v :: ts'.take k)) ++ u
          rw [← h2, hu]
          simp

/-- The truncated context is an initial segment of the whitespace-normalised
untruncated context (the single-space join of all tokens). -/
theorem truncate_context_starts (C : List Char) (N : Nat) :
    listStarts (joinSep ' ' (pySplit C)) (truncate_context C N) := by
  show listStarts (joinSep ' ' (pySplit C))
    (joinSep ' ' (if (pySplit C).length > N then (pySplit C).take N else pySplit C))
  by_cases h : (pySplit C).length > N
  · rw [if_pos h]
    obtain ⟨u, hu⟩ := joinSep_take_starts ' ' (pySplit C) N
    rw [hu]
    exact listStarts_of_append _ u
  · rw [if_neg h]
    exact listStarts_refl _

instance (s p : List Char) : Decidable (listStarts s p) :=
  inferInstanceAs (Decidable (s.take p.length = p))

/-- C2 (counterexample): with context "a\nb\nc" and max_tokens = 2, the code
returns "a b" (tokens joined by a single space), which is not an initial
segment of the original context string "a\nb\nc"; so the truncation result is
not in general a string prefix of the untruncated concatenation. -/
theorem C2_counterexample :
    truncate_context ['a', '\n', 'b', '\n', 'c'] 2 = ['a', ' ', 'b'] ∧
    ¬ listStarts ['a', '\n', 'b', '\n', 'c']
        (truncate_context ['a', '\n', 'b', '\n', 'c'] 2) := by
  constructor
  · rfl
  · decide

/-- C2 (amended): for every context string C and positive bound N,
truncation with max_tokens = N returns a result with at most N
whitespace-delimited tokens, cuts only at token boundaries (the result's token
sequence is exactly the first N tokens of C, never a fragment of a token), and
the result is an initial segment of the whitespace-normalised untruncated
concatenation (the single-space join of all of C's tokens) — though not, in
general, of C itself. -/
theorem C2_truncate_context (C : List Char) (N : Nat) (hN : 0 < N) :
    (pySplit (truncate_context C N)).length ≤ N ∧
    pySplit (truncate_context C N) = (pySplit C).take N ∧
    listStarts (joinSep ' ' (pySplit C)) (truncate_context C N) := by
  refine ⟨?_, pySplit_truncate_context C N, truncate_context_starts C N⟩
  rw [pySplit_truncate_context C N, List.length_take]
  exact Nat.min_le_left N _

/-- C2 witness: the amended truncation theorem instantiated at the concrete
context "a b c" with bound 2. -/
theorem C2_truncate_context_witness :
    (pySplit (truncate_context ['a', ' ', 'b', ' ', 'c'] 2)).length ≤ 2 ∧
    pySplit (truncate_context ['a', ' ', 'b', ' ', 'c'] 2) =
      (pySplit ['a', ' ', 'b', ' ', 'c']).take 2 ∧
    listStarts (joinSep ' ' (pySplit ['a', ' ', 'b', ' ', 'c']))
      (truncate_context ['a', ' ', 'b', ' ', 'c'] 2) :=
  C2_truncate_context ['a', ' ', 'b', ' ', 'c'] 2 (by decide)

/-- C9: context truncation is idempotent — truncating an already-truncated
context with the same bound changes nothing, because the first application
already normalises every whitespace run to a single space and leaves at most
N tokens. -/
theorem C9_truncate_context_idempotent (C : List Char) (N : Nat) :
    truncate_context (truncate_context C N) N = truncate_context C N := by
  have h1 : pySplit (truncate_context C N) = (pySplit C).take N :=
    pySplit_truncate_context C N
  show joinSep ' '
      (if (pySplit (truncate_context C N)).length > N
        then (pySplit (truncate_context C N)).take N
        else pySplit (truncate_context C N)) = truncate_context C N
  rw [h1, List.length_take]
  have hle : ¬ (min N (pySplit C).length > N) := by
    have := Nat.min_le_left N (pySplit C).length
    omega
  rw [if_neg hle]
  show joinSep ' ' ((pySplit C).take N) =
    joinSep ' ' (if (pySplit C).length > N then (pySplit C).take N else pySplit C)
  by_cases h : (pySplit C).length > N
  · rw [if_pos h]
  · rw [if_neg h, List.take_of_length_le (Nat.le_of_not_lt h)]

/-- A retrieved LangChain document: `page_content` is the passage text; the
remaining per-document data (metadata, score, embedding) is abstracted into an
opaque tag that lets two documents with equal content be distinct objects. -/
structure Doc where
  page_content : String
  tag : Nat
deriving DecidableEq, Repr

/-- Python dict assignment `m[d.page_content] = d` on an insertion-ordered
dictionary represented as an association list: an existing key keeps its
position and gets the new value; a new key is appended at the end. -/
def dictUpd (m : List (String × Doc)) (d : Doc) : List (String × Doc) :=
  match m with
  | [] => [(d.page_content, d)]
  | (k, v) :: rest =>
    if k = d.page_content then (k, d) :: rest else (k, v) :: dictUpd rest d

/-- Folding a document list into an insertion-ordered dictionary keyed by
`page_content`, i.e. the dict comprehension
`{doc.page_content: doc for doc in all_retrieved_docs}`. -/
def dictOfDocs : List (String × Doc) → List Doc → List (String × Doc)
  | m, [] => m
  | m, d :: ds => dictOfDocs (dictUpd m d) ds

/-- Model of the deduplication step (src/app.py line 168):
`list({doc.page_content: doc for doc in all_retrieved_docs}.values())`. -/
def dedupDocs (docs : List Doc) : List Doc :=
  (dictOfDocs [] docs).map Prod.snd

/-- Modelled from the spec: stable order-preserving deduplication that keeps
the first occurrence of every string ("Deduplicate by exact content equality,
keeping first occurrence"). `seen` is the set of strings already emitted. -/
def keepFirsts : List String → List String → List String
  | _, [] => []
  | seen, c :: cs =>
    if c ∈ seen then keepFirsts seen cs else c :: keepFirsts (c :: seen) cs

theorem keys_dictUpd (m : List (String × Doc)) (d : Doc) :
    (dictUpd m d).map Prod.fst =
      if d.page_content ∈ m.map Prod.fst then m.map Prod.fst
      else m.map Prod.fst ++ [d.page_content] := by
  induction m with
  | nil => simp [dictUpd]
  | cons p rest ih =>
    obtain ⟨k, v⟩ := p
    by_cases hk : k = d.page_content
    · subst hk
      simp [dictUpd]
    · have hcons : (d.page_content ∈ ((k, v) :: rest).map Prod.fst) ↔
          d.page_content ∈ rest.map Prod.fst := by
        simp only [List.map_cons, List.mem_cons]
        constructor
        · intro h
          rcases h with h | h
          · exact absurd h.symm hk
          · exact h
        · exact fun h => Or.inr h
      by_cases hmem : d.page_content ∈ rest.map Prod.fst
      · rw [if_pos (hcons.mpr hmem)]
        simp only [dictUpd, if_neg hk, List.map_cons, ih, if_pos hmem]
      · rw [if_neg (fun h => hmem (hcons.mp h))]
        simp only [dictUpd, if_neg hk, List.map_cons, ih, if_neg hmem]
        simp

/-- `keepFirsts` only depends on the seen list through membership. -/
theorem keepFirsts_congr :
    ∀ (l s₁ s₂ : List String), (∀ x, x ∈ s₁ ↔ x ∈ s₂) →
      keepFirsts s₁ l = keepFirsts s₂ l := by
  intro l
  induction l with
  | nil => intro s₁ s₂ _; rfl
  | cons c cs ih =>
    intro s₁ s₂ h
    by_cases hc : c ∈ s₁
    · rw [keepFirsts, keepFirsts, if_pos hc, if_pos ((h c).mp hc), ih s₁ s₂ h]
    · rw [keepFirsts, keepFirsts, if_neg hc, if_neg (fun hx => hc ((h c).mpr hx))]
      rw [ih (c :: s₁) (c :: s₂) (by intro x; simp [h x])]

/-- The keys of the dictionary built from a document list are exactly the
first occurrences of the contents, in order, after the keys already present. -/
theorem keys_dictOfDocs :
    ∀ (ds : List Doc) (m : List (String × Doc)),
      (dictOfDocs m ds).map Prod.fst =
        m.map Prod.fst ++ keepFirsts (m.map Prod.fst) (ds.map Doc.page_content) := by
  intro ds
  induction ds with
  | nil => intro m; simp [dictOfDocs, keepFirsts]
  | cons d ds ih =>
    intro m
    show (dictOfDocs (dictUpd m d) ds).map Prod.fst = _
    rw [ih (dictUpd m d), keys_dictUpd m d]
    by_cases hmem : d.page_content ∈ m.map Prod.fst
    · rw [if_pos hmem]
      show _ = m.map Prod.fst ++ keepFirsts (m.map Prod.fst) (d.page_content :: ds.map Doc.page_content)
      rw [keepFirsts, if_pos hmem]
    · rw [if_neg hmem]
      show _ = m.map Prod.fst ++ keepFirsts (m.map Prod.fst) (d.page_content :: ds.map Doc.page_content)
      rw [keepFirsts, if_neg hmem]
      rw [keepFirsts_congr (ds.map Doc.page_content)
        (m.map Prod.fst ++ [d.page_content]) (d.page_content :: m.map Prod.fst)
        (by intro x; simp [List.mem_append, List.mem_cons, Or.comm])]
      simp

/-- In a dictionary built by `dictUpd`, every stored document's content equals
its key. -/
theorem snd_content_dictUpd (m : List (String × Doc)) (d : Doc)
    (h : ∀ p ∈ m, (Prod.snd p).page_content = p.1) :
    ∀ p ∈ dictUpd m d, (Prod.snd p).page_content = p.1 := by
  induction m with
  | nil =>
    intro p hp
    simp [dictUpd] at hp
    subst hp
    rfl
  | cons q rest ih =>
    obtain ⟨k, v⟩ := q
    intro p hp
    by_cases hk : k = d.page_content
    · subst hk
      rw [dictUpd, if_pos rfl] at hp
      rcases List.mem_cons.mp hp with hp | hp
      · subst hp; rfl
      · exact h p (List.mem_cons_of_mem _ hp)
    · rw [dictUpd, if_neg hk] at hp
      rcases List.mem_cons.mp hp with hp | hp
      · subst hp
        exact h (k, v) (by simp)
      · exact ih (fun q hq => h q (List.mem_cons_of_mem _ hq)) p hp

theorem snd_content_dictOfDocs :
    ∀ (ds : List Doc) (m : List (String × Doc)),
      (∀ p ∈ m, (Prod.snd p).page_content = p.1) →
      ∀ p ∈ dictOfDocs m ds, (Prod.snd p).page_content = p.1 := by
  intro ds
  induction ds with
  | nil => intro m h; exact h
  | cons d ds ih =>
    intro m h
    exact ih (dictUpd m d) (snd_content_dictUpd m d h)

/-- The contents of the deduplicated document list are exactly the
first-occurrence deduplication of the input contents. -/
theorem dedupDocs_contents (docs : List Doc) :
    (dedupDocs docs).map Doc.page_content = keepFirsts [] (docs.map Doc.page_content) := by
  have hinv : ∀ p ∈ dictOfDocs [] docs, (Prod.snd p).page_content = p.1 :=
    snd_content_dictOfDocs docs [] (by simp)
  have h1 : (dedupDocs docs).map Doc.page_content =
      (dictOfDocs [] docs).map Prod.fst := by
    show ((dictOfDocs [] docs).map Prod.snd).map Doc.page_content = _
    rw [List.map_map]
    exact List.map_congr_left hinv
  rw [h1, keys_dictOfDocs docs []]
  simp

/-- A content already emitted never reappears in `keepFirsts`. -/
theorem count_keepFirsts_seen (c : String) :
    ∀ (l seen : List String), c ∈ seen → (keepFirsts seen l).count c = 0 := by
  intro l
  induction l with
  | nil => intro seen _; rfl
  | cons x xs ih =>
    intro seen hc
    by_cases hx : x ∈ seen
    · rw [keepFirsts, if_pos hx]
      exact ih seen hc
    · rw [keepFirsts, if_neg hx]
      have hxc : (x == c) = false := by
        have : x ≠ c := fun h => hx (h ▸ hc)
        simpa using this
      rw [List.count_cons, hxc]
      simp [ih (x :: seen) (List.mem_cons_of_mem x hc)]

/-- A content occurring in the input and not yet seen occurs exactly once in
`keepFirsts`. -/
theorem count_keepFirsts_new (c : String) :
    ∀ (l seen : List String), c ∉ seen → c ∈ l → (keepFirsts seen l).count c = 1 := by
  intro l
  induction l with
  | nil => intro seen _ hc; simp at hc
  | cons x xs ih =>
    intro seen hseen hc
    by_cases hx : x ∈ seen
    · have hxc : c ≠ x := fun h => hseen (h ▸ hx)
      have hc' : c ∈ xs := by
        rcases List.mem_cons.mp hc with h | h
        · exact absurd h hxc
        · exact h
      rw [keepFirsts, if_pos hx]
      exact ih seen hseen hc'
    · rw [keepFirsts, if_neg hx]
      by_cases hxc : x = c
      · subst hxc
        rw [List.count_cons]
        simp [count_keepFirsts_seen x xs (x :: seen) (by simp)]
      · have hc' : c ∈ xs := by
          rcases List.mem_cons.mp hc with h | h
          · exact absurd h.symm hxc
          · exact h
        have hnseen : c ∉ x :: seen := by
          intro h
          rcases List.mem_cons.mp h with h | h
          · exact hxc h.symm
          · exact hseen h
        rw [List.count_cons]
        have : (x == c) = false := by simpa using hxc
        rw [this]
        simp [ih (x :: seen) hnseen hc']

/-- C1: deduplication of retrieved passages is by exact content equality and
keeps the stable order of first occurrences — the contents of the deduplicated
list are exactly the input contents with later duplicates dropped, and any
content occurring in the input occurs exactly once after deduplication (hence
exactly once in the assembled context, which is built from this list). -/
theorem C1_dedup_by_content_first_occurrence (docs : List Doc) :
    (dedupDocs docs).map Doc.page_content = keepFirsts [] (docs.map Doc.page_content) ∧
    ∀ c, c ∈ docs.map Doc.page_content →
      ((dedupDocs docs).map Doc.page_content).count c = 1 := by
  refine ⟨dedupDocs_contents docs, ?_⟩
  intro c hc
  rw [dedupDocs_contents docs]
  exact count_keepFirsts_new c (docs.map Doc.page_content) [] (by simp) hc

/-- C1 witness: three retrieved passages with contents "a", "b", "a"; after
deduplication the contents are ["a", "b"] and "a" occurs exactly once. -/
theorem C1_dedup_witness :
    (dedupDocs [⟨"a", 0⟩, ⟨"b", 1⟩, ⟨"a", 2⟩]).map Doc.page_content =
      keepFirsts [] ([⟨"a", 0⟩, ⟨"b", 1⟩, (⟨"a", 2⟩ : Doc)].map Doc.page_content) ∧
    ((dedupDocs [⟨"a", 0⟩, ⟨"b", 1⟩, ⟨"a", 2⟩]).map Doc.page_content).count "a" = 1 :=
  ⟨(C1_dedup_by_content_first_occurrence [⟨"a", 0⟩, ⟨"b", 1⟩, ⟨"a", 2⟩]).1,
   (C1_dedup_by_content_first_occurrence [⟨"a", 0⟩, ⟨"b", 1⟩, ⟨"a", 2⟩]).2 "a" (by decide)⟩

/-- Severity of a log record written through the `logging` module. -/
inductive LogLevel
  | info
  | warning
  | error
deriving DecidableEq, Repr

/-- A log record: severity and message text. -/
structure LogMsg where
  level : LogLevel
  msg : String
deriving DecidableEq, Repr

/-- Outcomes of the external collaborators used by `update_vector_store`
(src/app.py lines 62-79): the database fetch-and-save, the two local document
loads, and the vector-store build-and-persist. Each fallible collaborator is
an `Except` value: `error` means the Python call raised. -/
structure RefreshEnv where
  fetchResult : Except String Unit
  localDocs : List Doc
  databaseDocs : List Doc
  createResult : List Doc → Except String (List Doc)

/-- Observable state touched by a refresh: the persisted vector store (if any)
and the log. -/
structure RefreshState where
  vectorStore : Option (List Doc)
  log : List LogMsg
deriving DecidableEq, Repr

/-- Model of `update_vector_store` (src/app.py lines 62-79). The whole body is
wrapped in try/except Exception, so every exception raised by a collaborator
is caught and logged: the function always returns normally. When the combined
document list is empty it logs a warning and returns before the rebuild. -/
def update_vector_store (env : RefreshEnv) (s : RefreshState) : RefreshState :=
  let s1 : RefreshState := { s with log := s.log ++ [⟨LogLevel.info, "Starting vector store update..."⟩] }
  match env.fetchResult with
  | Except.error e =>
    { s1 with log := s1.log ++ [⟨LogLevel.error, "Failed to update vector store: " ++ e⟩] }
  | Except.ok _ =>
    let combined_docs := env.localDocs ++ env.databaseDocs
    if combined_docs.isEmpty then
      { s1 with log := s1.log ++ [⟨LogLevel.warning, "No documents found for vector store update."⟩] }
    else
      match env.createResult combined_docs with
      | Except.error e =>
        { s1 with log := s1.log ++ [⟨LogLevel.error, "Failed to update vector store: " ++ e⟩] }
      | Except.ok vs =>
        { s1 with vectorStore := some vs,
                  log := s1.log ++ [⟨LogLevel.info, "Vectorstore updated successfully"⟩] }

/-- The job registered with the daily scheduler
(src/app.py line 83: scheduler.add_job(update_vector_store, 'interval', days=1))
is the `update_vector_store` function itself. -/
def scheduled_refresh_job : RefreshEnv → RefreshState → RefreshState :=
  update_vector_store

/-- Response of the manual-refresh endpoint: either the 200 success body
(a dict with a "status" field) or the 500 error body. -/
inductive ManualResponse
  | success (status : String)
  | error500 (err : String)
deriving DecidableEq, Repr

/-- Model of the GET /api/update_vectorstore endpoint
(src/app.py lines 86-93): call `update_vector_store()` inside try/except and
return the success body; the except branch would log and return a 500 body,
but `update_vector_store` never raises (its own body absorbs all exceptions),
so the match below is on a total function and only the success branch occurs. -/
def manual_update_vectorstore (env : RefreshEnv) (s : RefreshState) :
    RefreshState × ManualResponse :=
  (update_vector_store env s, ManualResponse.success "Vectorstore updated")

/-- C3: a refresh run that (after a successful remote fetch) finds zero
combined documents logs a warning and returns without rebuilding or replacing
the vector store: a previously existing index is left in place unchanged. -/
theorem C3_empty_corpus_preserves_store (env : RefreshEnv) (s : RefreshState)
    (hfetch : env.fetchResult = Except.ok ())
    (hempty : env.localDocs ++ env.databaseDocs = []) :
    (update_vector_store env s).vectorStore = s.vectorStore ∧
    (update_vector_store env s).log =
      s.log ++ [⟨LogLevel.info, "Starting vector store update..."⟩,
                ⟨LogLevel.warning, "No documents found for vector store update."⟩] := by
  have hempty' : (env.localDocs ++ env.databaseDocs).isEmpty = true := by
    rw [hempty]; rfl
  simp [update_vector_store, hfetch, hempty']

/-- Environment for the C3 witness: empty corpus, fetch succeeds, a build (if
it were reached) would succeed. -/
def envEmptyCorpus : RefreshEnv :=
  { fetchResult := Except.ok ()
    localDocs := []
    databaseDocs := []
    createResult := fun docs => Except.ok docs }

/-- C3 witness: with an empty corpus and a previously persisted index holding
one document, the refresh keeps the index and logs the warning. -/
theorem C3_empty_corpus_witness :
    (update_vector_store envEmptyCorpus ⟨some [⟨"old", 0⟩], []⟩).vectorStore =
      (⟨some [⟨"old", 0⟩], []⟩ : RefreshState).vectorStore ∧
    (update_vector_store envEmptyCorpus ⟨some [⟨"old", 0⟩], []⟩).log =
      (⟨some [⟨"old", 0⟩], []⟩ : RefreshState).log ++
        [⟨LogLevel.info, "Starting vector store update..."⟩,
         ⟨LogLevel.warning, "No documents found for vector store update."⟩] :=
  C3_empty_corpus_preserves_store envEmptyCorpus ⟨some [⟨"old", 0⟩], []⟩ rfl rfl

/-- C7: the scheduled daily refresh and the on-demand administrative endpoint
invoke the identical refresh routine — for every corpus/collaborator state the
two trigger paths produce the same state transition. -/
theorem C7_refresh_paths_identical (env : RefreshEnv) (s : RefreshState) :
    scheduled_refresh_job env s = (manual_update_vectorstore env s).1 := rfl

/-- C10: the manual refresh endpoint always returns the success body, for
every collaborator outcome — in particular also when the fetch or the rebuild
raised and the refresh therefore failed — because `update_vector_store`
absorbs every exception internally; the endpoint's 500 branch is unreachable. -/
theorem C10_manual_endpoint_always_success (env : RefreshEnv) (s : RefreshState) :
    (manual_update_vectorstore env s).2 = ManualResponse.success "Vectorstore updated" := rfl

/-- Lowercase hexadecimal digit for `n < 16`. -/
def hexDigitChar (n : Nat) : Char :=
  if n < 10 then Char.ofNat (48 + n) else Char.ofNat (87 + n)

/-- A JSON `\uXXXX` escape for a code unit `n < 65536`. -/
def uEscape (n : Nat) : List Char :=
  ['\\', 'u', hexDigitChar ((n / 4096) % 16), hexDigitChar ((n / 256) % 16),
   hexDigitChar ((n / 16) % 16), hexDigitChar (n % 16)]

/-- Escaping of one character as done by CPython `json.dumps` with its default
`ensure_ascii=True`: short escapes for quote, backslash and common controls,
`\uXXXX` for other controls and all non-ASCII characters (surrogate pairs
beyond the basic multilingual plane). -/
def pyJsonEscapeChar (c : Char) : List Char :=
  if c = '"' then ['\\', '"']
  else if c = '\\' then ['\\', '\\']
  else if c = '\n' then ['\\', 'n']
  else if c = '\t' then ['\\', 't']
  else if c = '\r' then ['\\', 'r']
  else if c = '\x08' then ['\\', 'b']
  else if c = '\x0c' then ['\\', 'f']
  else if c.toNat < 32 then uEscape c.toNat
  else if c.toNat < 127 then [c]
  else if c.toNat < 65536 then uEscape c.toNat
  else
    uEscape (55296 + (c.toNat - 65536) / 1024) ++ uEscape (56320 + (c.toNat - 65536) % 1024)

/-- JSON serialization of one string (with surrounding quotes). -/
def jsonStr (s : String) : List Char :=
  '"' :: s.data.foldr (fun c acc => pyJsonEscapeChar c ++ acc) ['"']

/-- `json.dumps` of a dict with exactly two string fields, in insertion order,
with CPython's default separators (", " and ": "). -/
def json_dumps_two (k1 v1 k2 v2 : String) : String :=
  String.mk ('\x7b' :: (jsonStr k1 ++ ':' :: ' ' :: jsonStr v1 ++
    ',' :: ' ' :: jsonStr k2 ++ ':' :: ' ' :: jsonStr v2 ++ ['\x7d']))

/-- Outcomes of the external collaborators used by the POST /api/rag_processing
endpoint (src/app.py lines 148-196): the chunker, the persisted-vector-store
load, the per-chunk retriever (k=2 similarity search), the LLM chain built
over the store, and the database push. Fallible Python calls are `Except`
values: `error` means the call raised. -/
structure RagEnv where
  chunk_input_message : String → List String
  load_vector_store : Except String (List Doc)
  retrieve : List Doc → String → List Doc
  chain_invoke : List Doc → String → List Char → Except String String
  push_data : String → String → Except String Unit

/-- Model of `rag_processing` (src/app.py lines 148-196). The function has no
try/except of its own, so any exception raised by a collaborator propagates to
the web framework (modelled by returning that `error`). On the success path it
chunks the input, retrieves per chunk, deduplicates by content, joins with
newlines, truncates to 6000 tokens, invokes the chain, serializes the two-field
response dict, pushes question/answer to the database, and only then returns
the serialized JSON. -/
def rag_processing (env : RagEnv) (input_text : String) : Except String String :=
  let transcription_status := input_text
  let chunks := env.chunk_input_message transcription_status
  match env.load_vector_store with
  | Except.error e => Except.error e
  | Except.ok vector_store =>
    let all_retrieved_docs :=
      chunks.foldl (fun acc ch => acc ++ env.retrieve vector_store ch) []
    let deduped := dedupDocs all_retrieved_docs
    let context_docs := joinSep '\n' (deduped.map (fun d => d.page_content.data))
    let context_docs2 := truncate_context context_docs 6000
    match env.chain_invoke vector_store transcription_status context_docs2 with
    | Except.error e => Except.error e
    | Except.ok llm_answer_status =>
      let json_response :=
        json_dumps_two "transcription_status" transcription_status
          "llm_answer_status" llm_answer_status
      match env.push_data transcription_status llm_answer_status with
      | Except.error e => Except.error e
      | Except.ok _ => Except.ok json_response

/-- Whether a query ended in an exception escaping `rag_processing` (and hence
reaching the web framework as a transport-level error) rather than in a
returned response. -/
def raisedUnhandled (r : Except String String) : Bool :=
  match r with
  | Except.error _ => true
  | Except.ok _ => false

/-- C6: on every input on which the pipeline completes (store load, chain
invocation and database push all succeed), the endpoint returns the
JSON-serialized object with exactly the two string fields
transcription_status (the original input text) and llm_answer_status (the
generated answer text), in that order. -/
theorem C6_response_is_two_field_json (env : RagEnv) (input_text : String)
    (vs : List Doc) (ans : String)
    (hload : env.load_vector_store = Except.ok vs)
    (hchain : ∀ q c, env.chain_invoke vs q c = Except.ok ans)
    (hpush : ∀ q a, env.push_data q a = Except.ok ()) :
    rag_processing env input_text =
      Except.ok (json_dumps_two "transcription_status" input_text
        "llm_answer_status" ans) := by
  simp [rag_processing, hload, hchain, hpush]

/-- Environment in which every collaborator succeeds: one chunk, no retrieved
documents, answer "Paris". -/
def envAllOk : RagEnv :=
  { chunk_input_message := fun s => [s]
    load_vector_store := Except.ok []
    retrieve := fun _ _ => []
    chain_invoke := fun _ _ _ => Except.ok "Paris"
    push_data := fun _ _ => Except.ok () }

/-- C6 witness: the success-path theorem instantiated at a concrete
environment and input. -/
theorem C6_response_witness :
    rag_processing envAllOk "capital?" =
      Except.ok (json_dumps_two "transcription_status" "capital?"
        "llm_answer_status" "Paris") :=
  C6_response_is_two_field_json envAllOk "capital?" [] "Paris" rfl
    (fun q c => rfl) (fun q a => rfl)

/-- Environment identical to `envAllOk` except that the LLM invocation raises
(e.g. a timeout). -/
def envChainFails : RagEnv :=
  { chunk_input_message := fun s => [s]
    load_vector_store := Except.ok []
    retrieve := fun _ _ => []
    chain_invoke := fun _ _ _ => Except.error "model timeout"
    push_data := fun _ _ => Except.ok () }

/-- C4 (counterexample): when the LLM invocation fails, `rag_processing` does
not return any result carrying a failed status — the exception escapes the
endpoint unhandled (the web framework turns it into a transport-level 500),
contradicting the claim that the operation returns status=failed to the
caller. -/
theorem C4_counterexample :
    rag_processing envChainFails "question" = Except.error "model timeout" ∧
    raisedUnhandled (rag_processing envChainFails "question") = true := ⟨rfl, rfl⟩

/-- C4 (amended): when the language-model invocation fails, `rag_processing`
propagates that failure as an unhandled exception carrying the model error
(the endpoint has no exception handling and never produces a status=failed
result); the caller sees a transport-level error, not a structured failure. -/
theorem C4_chain_failure_unhandled (env : RagEnv) (input_text : String)
    (vs : List Doc) (e : String)
    (hload : env.load_vector_store = Except.ok vs)
    (hchain : ∀ q c, env.chain_invoke vs q c = Except.error e) :
    rag_processing env input_text = Except.error e ∧
    raisedUnhandled (rag_processing env input_text) = true := by
  have h : rag_processing env input_text = Except.error e := by
    simp [rag_processing, hload, hchain]
  exact ⟨h, by rw [h]; rfl⟩

/-- C4 witness: the amended theorem instantiated at the concrete failing
environment. -/
theorem C4_chain_failure_witness :
    rag_processing envChainFails "q" = Except.error "model timeout" ∧
    raisedUnhandled (rag_processing envChainFails "q") = true :=
  C4_chain_failure_unhandled envChainFails "q" [] "model timeout" rfl (fun q c => rfl)

/-- Environment identical to `envAllOk` except that the database push raises. -/
def envPushFails : RagEnv :=
  { chunk_input_message := fun s => [s]
    load_vector_store := Except.ok []
    retrieve := fun _ _ => []
    chain_invoke := fun _ _ _ => Except.ok "Paris"
    push_data := fun _ _ => Except.error "db unavailable" }

/-- C5 (counterexample): the persistence push runs before the return
statement, so when it fails the already-computed answer is never returned —
the endpoint raises instead of answering, contradicting the claim that the
answer is independent of the persistence step. -/
theorem C5_counterexample :
    rag_processing envPushFails "question" = Except.error "db unavailable" ∧
    raisedUnhandled (rag_processing envPushFails "question") = true := ⟨rfl, rfl⟩

/-- C5 (amended): the answer is returned only after the persistence push
succeeds: if the push of the question/answer pair fails, the exception
propagates out of `rag_processing` and the answer (although already computed
and serialized) is not returned to the caller. -/
theorem C5_push_failure_blocks_answer (env : RagEnv) (input_text : String)
    (vs : List Doc) (ans e : String)
    (hload : env.load_vector_store = Except.ok vs)
    (hchain : ∀ q c, env.chain_invoke vs q c = Except.ok ans)
    (hpush : ∀ q a, env.push_data q a = Except.error e) :
    rag_processing env input_text = Except.error e ∧
    ∀ r, rag_processing env input_text ≠ Except.ok r := by
  have h : rag_processing env input_text = Except.error e := by
    simp [rag_processing, hload, hchain, hpush]
  refine ⟨h, ?_⟩
  intro r hr
  rw [h] at hr
  exact Except.noConfusion hr

/-- C5 witness: the amended theorem instantiated at the concrete environment
with a failing database push. -/
theorem C5_push_failure_witness :
    rag_processing envPushFails "q" = Except.error "db unavailable" ∧
    ∀ r, rag_processing envPushFails "q" ≠ Except.ok r :=
  C5_push_failure_blocks_answer envPushFails "q" [] "Paris" "db unavailable" rfl
    (fun q c => rfl) (fun q a => rfl)
